import Mathlib

/-!
Verification of the ontological-solver core: a shallow embedding of the
Grid data structure, the primitive scroll operations, the candidate
scorer and the beam-search synthesizer, together with theorems settling
the frozen claims about them.

Numeric scores are modelled over the rationals; integers are exact, as in
the source. Python exceptions are modelled with Except, and the Python
canonical-key objects (tuples of sorted dict items, which may embed a raw
dict) are modelled explicitly so that hashability is observable.
-/

/-! ## Matrices (2D integer arrays) and primitive data operations -/

abbrev Mat : Type := List (List Int)

/-- Transpose of a rectangular matrix, matching numpy .T on 2D arrays. -/
def transposeMat (a : Mat) : Mat :=
  (List.range (a.headD []).length).map (fun j => a.map (fun row => row.getD j 0))

/-- One counter-clockwise quarter rotation, matching numpy rot90 with k equal 1. -/
def rot90_1 (a : Mat) : Mat := (transposeMat a).reverse

/-- Iterated quarter rotations. -/
def rotN : Nat → Mat → Mat
  | 0, a => a
  | n + 1, a => rotN n (rot90_1 a)

/-- Mirror along axis 0 (reverse the rows), matching numpy flip axis 0. -/
def flipAx0 (a : Mat) : Mat := a.reverse

/-- Mirror along axis 1 (reverse each row), matching numpy flip axis 1. -/
def flipAx1 (a : Mat) : Mat := a.map (fun r => r.reverse)

/-- Value of one cell after the REMAP masking loop: the source iterates the
mapping entries in order and assigns where the ORIGINAL value matches the key,
so a later entry with the same key overwrites an earlier one. -/
def remapCell (m : List (Int × Int)) (v : Int) : Int :=
  m.foldl (fun acc p => if v = p.1 then p.2 else acc) v

/-- REMAP applied to every cell; masking is against the pre-operation array. -/
def remapMat (m : List (Int × Int)) (a : Mat) : Mat :=
  a.map (fun r => r.map (remapCell m))

def flattenMat (a : Mat) : List Int := a.flatMap id

/-- The numpy shape of a matrix as (height, width); the width of a matrix with
no rows is degenerate and reported as 0. -/
def gshape (a : Mat) : Nat × Nat := (a.length, (a.headD []).length)

/-! ## Grid: immutable array plus provenance log -/

structure Grid where
  data : Mat
  log : List String
deriving DecidableEq, Repr

def rectangular (a : Mat) : Bool :=
  a.all (fun r => r.length = (a.headD []).length)

/-- Embeds Grid.from_list: numpy rejects ragged or empty input as not 2D. -/
def from_list (a : Mat) : Except String Grid :=
  if a.isEmpty then .error "Input must be a 2D list"
  else if rectangular a then .ok ⟨a, []⟩
  else .error "Input must be a 2D list"

/-- Python repr of an int-to-int dict, used in the REMAP provenance entry. -/
def dictRepr (m : List (Int × Int)) : String :=
  "\x7b" ++ String.intercalate ", " (m.map (fun p => toString p.1 ++ ": " ++ toString p.2)) ++ "\x7d"

def op_ROT90 (g : Grid) (k : Int) : Grid :=
  ⟨rotN ((k % 4 + 4) % 4).toNat g.data,
   g.log ++ ["ROT90(" ++ toString ((k % 4 + 4) % 4).toNat ++ ")"]⟩

def op_FLIP (g : Grid) (axis : Int) : Except String Grid :=
  if axis = 0 then .ok ⟨flipAx0 g.data, g.log ++ ["FLIP(0)"]⟩
  else if axis = 1 then .ok ⟨flipAx1 g.data, g.log ++ ["FLIP(1)"]⟩
  else .error "axis must be 0 or 1"

def op_TRANSPOSE (g : Grid) : Grid :=
  ⟨transposeMat g.data, g.log ++ ["TRANSPOSE"]⟩

def op_REMAP (g : Grid) (m : List (Int × Int)) : Grid :=
  ⟨remapMat m g.data, g.log ++ ["REMAP(" ++ dictRepr m ++ ")"]⟩

/-! ## Scroll steps

A step mirrors the Python dict: the op name plus optional parameters, where
a missing parameter takes the same default the source supplies to dict.get. -/

structure Step where
  op : String
  k : Option Int
  axis : Option Int
  mapping : Option (List (Int × Int))
deriving DecidableEq, Repr

def mkROT90 (k : Int) : Step := ⟨"ROT90", some k, none, none⟩
def mkFLIP (a : Int) : Step := ⟨"FLIP", none, some a, none⟩
def mkTRANSPOSE : Step := ⟨"TRANSPOSE", none, none, none⟩
def mkREMAP (m : List (Int × Int)) : Step := ⟨"REMAP", none, none, some m⟩

/-- One dispatch of the apply loop body. -/
def applyStep (g : Grid) (s : Step) : Except String Grid :=
  if s.op = "ROT90" then .ok (op_ROT90 g (s.k.getD 1))
  else if s.op = "FLIP" then op_FLIP g (s.axis.getD 1)
  else if s.op = "TRANSPOSE" then .ok (op_TRANSPOSE g)
  else if s.op = "REMAP" then .ok (op_REMAP g (s.mapping.getD []))
  else .error ("Unknown op: " ++ s.op)

/-- Embeds apply_scroll: fold the grid through the steps, propagating errors. -/
def apply_scroll : List Step → Grid → Except String Grid
  | [], g => .ok g
  | s :: rest, g =>
    match applyStep g s with
    | .error e => .error e
    | .ok g2 => apply_scroll rest g2

/-! ## Scorer -/

def insInt (v : Int) : List Int → List Int
  | [] => [v]
  | x :: xs => if v ≤ x then v :: x :: xs else x :: insInt v xs

def sortInts : List Int → List Int
  | [] => []
  | x :: xs => insInt x (sortInts xs)

/-- Sorted list of the distinct values, matching numpy unique. -/
def sortedUnique (l : List Int) : List Int := sortInts l.dedup

/-- Embeds palette_similarity: histogram overlap ratio over the colors present
in either matrix. -/
def palette_similarity (a b : Mat) : ℚ :=
  let fa := flattenMat a
  let fb := flattenMat b
  let colors := sortedUnique (fa ++ fb)
  if colors.isEmpty then 1
  else
    let num : Nat := (colors.map (fun c => min (fa.count c) (fb.count c))).sum
    let den : Nat := (colors.map (fun c => max (fa.count c) (fb.count c))).sum
    if 0 < den then (num : ℚ) / (den : ℚ) else 1

/-- Score of one training pair: execution failure gives 0, an exact match
gives 1, otherwise 0.7 times palette similarity plus 0.3 times shape match. -/
def pair_score (scroll : List Step) (x y : Grid) : ℚ :=
  match apply_scroll scroll x with
  | .error _ => 0
  | .ok out =>
    if out.data = y.data then 1
    else mkRat 7 10 * palette_similarity out.data y.data
         + mkRat 3 10 * (if gshape out.data = gshape y.data then 1 else 0)

/-- Embeds score_prog: mean of the per-pair scores, 0 for no pairs. -/
def score_prog (scroll : List Step) (xs ys : List Grid) : ℚ :=
  let scores := (xs.zip ys).map (fun p => pair_score scroll p.1 p.2)
  if scores.isEmpty then 0 else scores.sum / (scores.length : ℚ)

/-! ## Operation library and REMAP inference -/

/-- Embeds the op_space generator: single rotations, single flips, transpose,
then every rotation followed by every flip. -/
def op_space : List (List Step) :=
  (([1, 2, 3] : List Int).map (fun k => [mkROT90 k])) ++
  (([0, 1] : List Int).map (fun a => [mkFLIP a])) ++
  [[mkTRANSPOSE]] ++
  (([1, 2, 3] : List Int).flatMap (fun k =>
    ([0, 1] : List Int).map (fun a => [mkROT90 k, mkFLIP a])))

/-- Embeds infer_remap: zip the sorted distinct colors of x with those of y
when the two color sets have the same size. -/
def infer_remap (x y : Mat) : Option (List (Int × Int)) :=
  let xv := sortedUnique (flattenMat x)
  let yv := sortedUnique (flattenMat y)
  if xv.length ≠ yv.length then none else some (xv.zip yv)

/-! ## Canonical de-duplication keys

The Python key of a step is the pair of the op name with the tuple of the
sorted dict items; for a REMAP step one item value is the raw mapping dict,
which is not hashable, so testing set membership of such a key raises. -/

inductive PyVal where
  | vint (n : Int)
  | vstr (s : String)
  | vdict (m : List (Int × Int))
deriving DecidableEq, Repr

abbrev KeyT : Type := List (String × List (String × PyVal))

/-- Sorted items of the step dict; the field names happen to sort as
axis, k, mapping, op. -/
def stepItems (s : Step) : List (String × PyVal) :=
  (match s.axis with | some a => [("axis", PyVal.vint a)] | none => []) ++
  (match s.k with | some k => [("k", PyVal.vint k)] | none => []) ++
  (match s.mapping with | some m => [("mapping", PyVal.vdict m)] | none => []) ++
  [("op", PyVal.vstr s.op)]

def progKey (p : List Step) : KeyT := p.map (fun s => (s.op, stepItems s))

/-- A key is hashable exactly when no step carries a mapping dict. -/
def keyHashable (p : List Step) : Bool := p.all (fun s => s.mapping.isNone)

/-- Membership test of a canonical key in the seen set: hashing the key
raises TypeError when the key embeds a dict. -/
def seen_check (p : List Step) (seen : List KeyT) : Except String Bool :=
  if keyHashable p then .ok (decide (progKey p ∈ seen))
  else .error "TypeError: unhashable type: dict"

/-! ## Beam search -/

abbrev Cand : Type := List Step × ℚ

/-- One candidate consideration in the expansion loop: skip when the key was
seen, otherwise record the key and score the program. -/
def step_entry (xs ys : List Grid) (st : List Cand × List KeyT) (c : List Step) :
    List Cand × List KeyT :=
  if progKey c ∈ st.2 then st
  else (st.1 ++ [(c, score_prog c xs ys)], st.2 ++ [progKey c])

/-- The same consideration with the fallible membership test of the source. -/
def step_entryE (xs ys : List Grid) (st : List Cand × List KeyT) (c : List Step) :
    Except String (List Cand × List KeyT) :=
  match seen_check c st.2 with
  | .error e => .error e
  | .ok true => .ok st
  | .ok false => .ok (st.1 ++ [(c, score_prog c xs ys)], st.2 ++ [progKey c])

/-- All extensions generated in one expansion round, in source order. -/
def candidates (pool : List Cand) : List (List Step) :=
  pool.flatMap (fun pq => op_space.map (fun ops => pq.1 ++ ops))

def foldE (f : List Cand × List KeyT → List Step → Except String (List Cand × List KeyT)) :
    List Cand × List KeyT → List (List Step) → Except String (List Cand × List KeyT)
  | st, [] => .ok st
  | st, c :: cs =>
    match f st c with
    | .error e => .error e
    | .ok st2 => foldE f st2 cs

/-- One expansion round over the current pool. -/
def roundE (xs ys : List Grid) (pool : List Cand) (seen : List KeyT) :
    Except String (List Cand × List KeyT) :=
  foldE (step_entryE xs ys) ([], seen) (candidates pool)

/-- Stable insertion for the descending sort by score; list.sort with a key
and reverse set is a stable descending sort, and a stable sort is uniquely
determined by the comparison, so insertion sort is a faithful model. -/
def insDesc (e : Cand) : List Cand → List Cand
  | [] => [e]
  | x :: xs => if x.2 ≤ e.2 then e :: x :: xs else x :: insDesc e xs

def sortDesc : List Cand → List Cand
  | [] => []
  | x :: xs => insDesc x (sortDesc xs)

/-- The expansion loop body performed depth times. -/
def synth_loop (xs ys : List Grid) (beam : Nat) :
    Nat → List Cand × List KeyT → Except String (List Cand × List KeyT)
  | 0, st => .ok st
  | n + 1, st =>
    match roundE xs ys st.1 st.2 with
    | .error e => .error e
    | .ok r => synth_loop xs ys beam n ((sortDesc r.1).take beam, r.2)

/-- Initial pool: the identity scroll, plus a seeded REMAP scroll when the
inferred mapping of the first pair is a truthy (nonempty) dict. -/
def init_pool (xs ys : List Grid) (x0 y0 : Grid) : List Cand :=
  [(([] : List Step), score_prog [] xs ys)] ++
  (match infer_remap x0.data y0.data with
   | none => []
   | some m =>
     if m.isEmpty then []
     else [([mkREMAP m], score_prog [mkREMAP m] xs ys)])

def mapE (f : Mat × Mat → Except String Grid) : List (Mat × Mat) → Except String (List Grid)
  | [] => .ok []
  | p :: rest =>
    match f p with
    | .error e => .error e
    | .ok g =>
      match mapE f rest with
      | .error e => .error e
      | .ok gs => .ok (g :: gs)

/-- Embeds synthesize_scroll: build the grids, seed the pool, run the beam
search, and return the best scroll of the final (re-sorted) pool. -/
def synthesize_scroll (train : List (Mat × Mat)) (beam depth : Nat) :
    Except String (List Step) :=
  match mapE (fun p => from_list p.1) train with
  | .error e => .error e
  | .ok xs =>
    match mapE (fun p => from_list p.2) train with
    | .error e => .error e
    | .ok ys =>
      match xs, ys with
      | x0 :: _, y0 :: _ =>
        (match synth_loop xs ys beam depth (init_pool xs ys x0 y0, []) with
         | .error e => .error e
         | .ok st =>
           .ok (match sortDesc st.1 with
                | [] => []
                | c :: _ => c.1))
      | _, _ => .error "IndexError: list index out of range"

/-! ## Exact-match verification -/

def eval_pairs (scroll : List Step) : List (Grid × Grid) → Nat → Except String (Bool × String)
  | [], _ => .ok (true, "exact match")
  | (x, y) :: rest, i =>
    match apply_scroll scroll x with
    | .error e => .error e
    | .ok out =>
      if out.data = y.data then eval_pairs scroll rest (i + 1)
      else .ok (false, "mismatch on pair " ++ toString (i + 1))

/-- Embeds eval_scroll: exact match on every pair, reporting the first
mismatch by 1-based pair index; execution errors are not caught here. -/
def eval_scroll (scroll : List Step) (train : List (Mat × Mat)) :
    Except String (Bool × String) :=
  match mapE (fun p => from_list p.1) train with
  | .error e => .error e
  | .ok xs =>
    match mapE (fun p => from_list p.2) train with
    | .error e => .error e
    | .ok ys => eval_pairs scroll (xs.zip ys) 0

/-! ## Specification-side predicates and the pure search trajectory -/

/-- A step the executor rejects: an unrecognized op kind, or a FLIP whose
effective axis is outside 0 and 1. -/
def bad_step (s : Step) : Prop :=
  s.op ∉ (["ROT90", "FLIP", "TRANSPOSE", "REMAP"] : List String) ∨
  (s.op = "FLIP" ∧ s.axis.getD 1 ≠ 0 ∧ s.axis.getD 1 ≠ 1)

/-- The provenance descriptor each recognized operation appends. -/
def step_descr (s : Step) : String :=
  if s.op = "ROT90" then "ROT90(" ++ toString ((s.k.getD 1 % 4 + 4) % 4).toNat ++ ")"
  else if s.op = "FLIP" then "FLIP(" ++ toString (s.axis.getD 1) ++ ")"
  else if s.op = "TRANSPOSE" then "TRANSPOSE"
  else if s.op = "REMAP" then "REMAP(" ++ dictRepr (s.mapping.getD []) ++ ")"
  else ""

/-- Every candidate in a pool has a hashable canonical key. -/
def allHashable (pool : List Cand) : Prop :=
  ∀ p ∈ pool, keyHashable p.1 = true

/-- Pure version of one expansion round; it coincides with roundE whenever
every key that gets tested is hashable. -/
def roundP (xs ys : List Grid) (pool : List Cand) (seen : List KeyT) :
    List Cand × List KeyT :=
  (candidates pool).foldl (step_entry xs ys) ([], seen)

/-- One full round: expand, sort descending by score, truncate to the beam. -/
def stepState (xs ys : List Grid) (beam : Nat) (st : List Cand × List KeyT) :
    List Cand × List KeyT :=
  ((sortDesc (roundP xs ys st.1 st.2).1).take beam, (roundP xs ys st.1 st.2).2)

/-- n pure rounds, peeling from the front as the loop does. -/
def stepN (xs ys : List Grid) (beam : Nat) : Nat → List Cand × List KeyT → List Cand × List KeyT
  | 0, st => st
  | n + 1, st => stepN xs ys beam n (stepState xs ys beam st)

/-- The state of the pure search after n rounds from an initial pool. -/
def pools (xs ys : List Grid) (beam : Nat) (p0 : List Cand) (n : Nat) :
    List Cand × List KeyT :=
  stepN xs ys beam n (p0, [])

/-! ## Theorems -/

/-- C9 counterexample: the move vocabulary does not comprise 13 moves. -/
theorem C9_not_thirteen_moves : op_space.length ≠ 13 := by decide

/-- C9 amended: the fixed move vocabulary consists of exactly the three
single rotations, the two single flips, the single transpose, and the six
rotation-then-flip pairs, comprising 12 fixed single or two-step moves. -/
theorem C9_move_vocabulary :
    op_space =
      [[mkROT90 1], [mkROT90 2], [mkROT90 3], [mkFLIP 0], [mkFLIP 1], [mkTRANSPOSE],
       [mkROT90 1, mkFLIP 0], [mkROT90 1, mkFLIP 1], [mkROT90 2, mkFLIP 0],
       [mkROT90 2, mkFLIP 1], [mkROT90 3, mkFLIP 0], [mkROT90 3, mkFLIP 1]] ∧
    op_space.length = 12 :=
  ⟨rfl, rfl⟩

/-- C2: the canonical key of any scroll containing a REMAP step embeds the
raw mapping dict, so it is not hashable and testing its membership in the
seen set raises TypeError instead of returning; the key is therefore not
usable for set membership for the REMAP kind. -/
theorem C2_remap_key_not_usable :
    keyHashable [mkREMAP [(1, 2)]] = false ∧
    seen_check [mkREMAP [(1, 2)]] [] = .error "TypeError: unhashable type: dict" ∧
    seen_check [mkREMAP [(1, 2)]] [progKey [mkREMAP [(1, 2)]]] =
      .error "TypeError: unhashable type: dict" ∧
    (∀ seen : List KeyT, seen_check [mkREMAP [(1, 2)]] seen =
      .error "TypeError: unhashable type: dict") :=
  ⟨rfl, rfl, rfl, fun _ => rfl⟩

/-- C1: on a task whose single training pair is exactly a 90 degree CCW
rotation, synthesize_scroll with depth 1 raises TypeError instead of
returning a scroll: the color set is preserved, so a REMAP candidate is
seeded, and hashing the canonical key of its first extension fails on the
embedded mapping dict. -/
theorem C1_synthesize_raises_on_rotation_task :
    rotN 1 [[1, 2], [3, 4]] = [[2, 4], [1, 3]] ∧
    synthesize_scroll [([[1, 2], [3, 4]], [[2, 4], [1, 3]])] 100 1 =
      .error "TypeError: unhashable type: dict" :=
  ⟨rfl, by with_unfolding_all rfl⟩

/-- C10 counterexample: with beam width 0 the beam empties after the first
round and synthesize_scroll returns normally with the empty scroll. -/
theorem C10_beam_zero_returns_empty :
    synthesize_scroll [([[1, 2]], [[1, 1]])] 0 1 = .ok [] := by
  with_unfolding_all rfl

theorem applyStep_err_of_bad (g : Grid) (s : Step) (hb : bad_step s) :
    ∃ e, applyStep g s = .error e := by
  unfold bad_step at hb
  unfold applyStep
  rcases hb with hmem | ⟨hf, h0, h1⟩
  · simp only [List.mem_cons, List.mem_singleton, List.not_mem_nil] at hmem
    push_neg at hmem
    obtain ⟨n1, n2, n3, n4⟩ := hmem
    simp [n1, n2, n3, n4]
  · simp [hf, op_FLIP, h0, h1]

theorem applyStep_ok_of_good (g : Grid) (s : Step) (hb : ¬ bad_step s) :
    ∃ g2, applyStep g s = .ok g2 := by
  unfold bad_step at hb
  push_neg at hb
  obtain ⟨hmem, hflip⟩ := hb
  unfold applyStep
  simp only [List.mem_cons, List.mem_singleton, List.not_mem_nil, or_false] at hmem
  rcases hmem with h | h | h | h <;> simp only [h]
  · simp
  · by_cases hz : s.axis.getD 1 = 0
    · simp [op_FLIP, hz]
    · have h1 := hflip h hz
      simp [op_FLIP, hz, h1]
  · simp
  · simp

/-- C5: apply_scroll raises exactly when some step is unrecognized or is a
FLIP with an invalid axis; otherwise it returns a grid. -/
theorem C5_apply_scroll_error_iff (scroll : List Step) (g : Grid) :
    (∃ e, apply_scroll scroll g = .error e) ↔ (∃ s ∈ scroll, bad_step s) := by
  induction scroll generalizing g with
  | nil => simp [apply_scroll]
  | cons s rest ih =>
    constructor
    · intro ⟨e, he⟩
      by_cases hb : bad_step s
      · exact ⟨s, List.mem_cons_self s rest, hb⟩
      · obtain ⟨g2, hg2⟩ := applyStep_ok_of_good g s hb
        rw [apply_scroll, hg2] at he
        obtain ⟨t, ht, hbt⟩ := (ih g2).mp ⟨e, he⟩
        exact ⟨t, List.mem_cons_of_mem s ht, hbt⟩
    · intro ⟨t, ht, hbt⟩
      rcases List.mem_cons.mp ht with rfl | htr
      · obtain ⟨e, he⟩ := applyStep_err_of_bad g t hbt
        exact ⟨e, by rw [apply_scroll, he]⟩
      · by_cases hb : bad_step s
        · obtain ⟨e, he⟩ := applyStep_err_of_bad g s hb
          exact ⟨e, by rw [apply_scroll, he]⟩
        · obtain ⟨g2, hg2⟩ := applyStep_ok_of_good g s hb
          obtain ⟨e, he⟩ := (ih g2).mpr ⟨t, htr, hbt⟩
          exact ⟨e, by rw [apply_scroll, hg2]; exact he⟩

/-- C5 witness: a concrete scroll with an unknown op errors, and a concrete
well-formed scroll does not. -/
theorem C5_witness :
    (∃ e, apply_scroll [Step.mk "SPIN" none none none] ⟨[[1]], []⟩ = .error e) ∧
    ¬ (∃ e, apply_scroll [mkROT90 1, mkFLIP 0] ⟨[[1]], []⟩ = .error e) :=
  ⟨(C5_apply_scroll_error_iff [Step.mk "SPIN" none none none] ⟨[[1]], []⟩).mpr
     ⟨Step.mk "SPIN" none none none, by decide, by unfold bad_step; left; decide⟩,
   fun h => by
     obtain ⟨s, hs, hb⟩ := (C5_apply_scroll_error_iff [mkROT90 1, mkFLIP 0] ⟨[[1]], []⟩).mp h
     rcases List.mem_cons.mp hs with rfl | hs2
     · unfold bad_step at hb
       rcases hb with hm | ⟨hf, h0, h1⟩
       · exact hm (by decide)
       · exact absurd hf (by decide)
     · rcases List.mem_cons.mp hs2 with rfl | hs3
       · unfold bad_step at hb
         rcases hb with hm | ⟨hf, h0, h1⟩
         · exact hm (by decide)
         · exact h0 (by decide)
       · simp at hs3⟩

theorem applyStep_log (g : Grid) (s : Step) (g2 : Grid)
    (h : applyStep g s = .ok g2) : g2.log = g.log ++ [step_descr s] := by
  unfold applyStep at h
  unfold step_descr
  split_ifs at h ⊢ with h1 h2 h3 h4
  · injection h with h
    subst h
    rfl
  · unfold op_FLIP at h
    by_cases hz : s.axis.getD 1 = 0
    · rw [if_pos hz] at h
      injection h with h
      subst h
      rw [hz]
      rfl
    · by_cases ho : s.axis.getD 1 = 1
      · rw [if_neg hz, if_pos ho] at h
        injection h with h
        subst h
        rw [ho]
        rfl
      · rw [if_neg hz, if_neg ho] at h
        exact absurd h (by simp)
  · injection h with h
    subst h
    rfl
  · injection h with h
    subst h
    rfl

/-- C7: when apply_scroll succeeds, the log of the result is the log of the
input followed by exactly one descriptor per step, and the empty scroll
returns the input grid unchanged (same cells, shape and log). -/
theorem C7_log_concatenation :
    (∀ (scroll : List Step) (g g2 : Grid), apply_scroll scroll g = .ok g2 →
        g2.log = g.log ++ scroll.map step_descr) ∧
    (∀ g : Grid, apply_scroll [] g = .ok g) := by
  constructor
  · intro scroll
    induction scroll with
    | nil =>
      intro g g2 h
      injection h with h
      subst h
      simp
    | cons s rest ih =>
      intro g g2 h
      cases hs : applyStep g s with
      | error e =>
        rw [apply_scroll, hs] at h
        exact absurd h (by simp)
      | ok gmid =>
        rw [apply_scroll, hs] at h
        rw [ih gmid g2 h, applyStep_log g s gmid hs]
        simp
  · intro g
    rfl

/-- C7 witness: a concrete two-step scroll produces exactly the two
descriptors, in order, on a grid with an empty log. -/
theorem C7_witness :
    (⟨[[1], [2]], ["ROT90(1)", "FLIP(0)"]⟩ : Grid).log =
      (⟨[[1, 2]], []⟩ : Grid).log ++ [mkROT90 1, mkFLIP 0].map step_descr :=
  C7_log_concatenation.1 [mkROT90 1, mkFLIP 0] ⟨[[1, 2]], []⟩
    ⟨[[1], [2]], ["ROT90(1)", "FLIP(0)"]⟩ rfl

theorem remapCell_no_match (v a : Int) (m : List (Int × Int))
    (h : ∀ p ∈ m, p.1 ≠ v) :
    m.foldl (fun acc p => if v = p.1 then p.2 else acc) a = a := by
  induction m generalizing a with
  | nil => rfl
  | cons q rest ih =>
    rw [List.foldl_cons]
    have hq : q.1 ≠ v := h q (List.mem_cons_self q rest)
    rw [if_neg (fun hv => hq hv.symm)]
    exact ih a (fun p hp => h p (List.mem_cons_of_mem q hp))

theorem remapCell_not_mem (m : List (Int × Int)) (v : Int)
    (h : v ∉ m.map Prod.fst) : remapCell m v = v := by
  apply remapCell_no_match
  intro p hp he
  exact h (by rw [← he]; exact List.mem_map_of_mem Prod.fst hp)

theorem remapCell_mem (m : List (Int × Int)) (v b : Int)
    (hnd : (m.map Prod.fst).Nodup) (hm : (v, b) ∈ m) : remapCell m v = b := by
  induction m with
  | nil => simp at hm
  | cons q rest ih =>
    rw [List.map_cons, List.nodup_cons] at hnd
    obtain ⟨hq, hrest⟩ := hnd
    rcases List.mem_cons.mp hm with hqe | hm2
    · subst hqe
      unfold remapCell
      rw [List.foldl_cons, if_pos rfl]
      refine remapCell_no_match v b rest ?_
      intro p hp he
      apply hq
      show v ∈ rest.map Prod.fst
      rw [← he]
      exact List.mem_map_of_mem Prod.fst hp
    · have hqv : q.1 ≠ v := by
        intro he
        apply hq
        rw [he]
        exact List.mem_map_of_mem Prod.fst hm2
      unfold remapCell
      rw [List.foldl_cons, if_neg (fun hv => hqv hv.symm)]
      exact ih hrest hm2

theorem remapCell_perm (m m2 : List (Int × Int)) (v : Int)
    (hnd : (m.map Prod.fst).Nodup) (hp : m.Perm m2) :
    remapCell m v = remapCell m2 v := by
  have hnd2 : (m2.map Prod.fst).Nodup := ((hp.map Prod.fst).nodup_iff).mp hnd
  by_cases hv : v ∈ m.map Prod.fst
  · obtain ⟨p, hpm, hpv⟩ := List.mem_map.mp hv
    obtain ⟨a, b⟩ := p
    have ha : a = v := hpv
    subst ha
    rw [remapCell_mem m a b hnd hpm, remapCell_mem m2 a b hnd2 (hp.mem_iff.mp hpm)]
  · have hv2 : v ∉ m2.map Prod.fst := fun h => hv (((hp.map Prod.fst).mem_iff).mpr h)
    rw [remapCell_not_mem m v hv, remapCell_not_mem m2 v hv2]

/-- C8: with pairwise-distinct keys the REMAP result is order independent,
masking is cellwise against the pre-operation array, a cell whose original
value is a mapping key becomes the mapped value, and any other cell keeps
its original value. -/
theorem C8_remap_order_independent (g : Grid) (m m2 : List (Int × Int))
    (hnd : (m.map Prod.fst).Nodup) (hp : m.Perm m2) :
    (op_REMAP g m2).data = (op_REMAP g m).data ∧
    (op_REMAP g m).data = g.data.map (fun row => row.map (remapCell m)) ∧
    (∀ v b, (v, b) ∈ m → remapCell m v = b) ∧
    (∀ v, v ∉ m.map Prod.fst → remapCell m v = v) := by
  refine ⟨?_, rfl, fun v b hvb => remapCell_mem m v b hnd hvb,
    fun v hv => remapCell_not_mem m v hv⟩
  show remapMat m2 g.data = remapMat m g.data
  unfold remapMat
  exact List.map_congr_left (fun row _ =>
    List.map_congr_left (fun v _ => (remapCell_perm m m2 v hnd hp).symm))

/-- C8 witness: a concrete mapping applied in both orders gives the same
data, maps a present key, and leaves an absent color unchanged. -/
theorem C8_witness :
    (op_REMAP ⟨[[1, 2, 3]], []⟩ [(2, 5), (1, 4)]).data =
      (op_REMAP ⟨[[1, 2, 3]], []⟩ [(1, 4), (2, 5)]).data ∧
    remapCell [(1, 4), (2, 5)] 1 = 4 ∧
    remapCell [(1, 4), (2, 5)] 3 = 3 := by
  have h := C8_remap_order_independent ⟨[[1, 2, 3]], []⟩ [(1, 4), (2, 5)] [(2, 5), (1, 4)]
    (by decide) (by decide)
  exact ⟨h.1, h.2.2.1 1 4 (by decide), h.2.2.2 3 (by decide)⟩

theorem palette_similarity_bounds (a b : Mat) :
    0 ≤ palette_similarity a b ∧ palette_similarity a b ≤ 1 := by
  unfold palette_similarity
  by_cases hc : (sortedUnique (flattenMat a ++ flattenMat b)).isEmpty
  · simp [hc]
  · rw [if_neg hc]
    by_cases hd :
        0 < ((sortedUnique (flattenMat a ++ flattenMat b)).map
          (fun c => max ((flattenMat a).count c) ((flattenMat b).count c))).sum
    · rw [if_pos hd]
      have hnd : ((sortedUnique (flattenMat a ++ flattenMat b)).map
            (fun c => min ((flattenMat a).count c) ((flattenMat b).count c))).sum ≤
          ((sortedUnique (flattenMat a ++ flattenMat b)).map
            (fun c => max ((flattenMat a).count c) ((flattenMat b).count c))).sum :=
        List.sum_le_sum (fun c _ => min_le_max)
      constructor
      · positivity
      · rw [div_le_one (by exact_mod_cast hd)]
        exact_mod_cast hnd
    · rw [if_neg hd]
      norm_num

theorem pair_score_err (scroll : List Step) (x y : Grid) (e : String)
    (hap : apply_scroll scroll x = .error e) : pair_score scroll x y = 0 := by
  simp [pair_score, hap]

theorem pair_score_exact (scroll : List Step) (x y : Grid) (out : Grid)
    (hap : apply_scroll scroll x = .ok out) (he : out.data = y.data) :
    pair_score scroll x y = 1 := by
  simp [pair_score, hap, he]

theorem pair_score_soft (scroll : List Step) (x y : Grid) (out : Grid)
    (hap : apply_scroll scroll x = .ok out) (he : out.data ≠ y.data) :
    pair_score scroll x y =
      mkRat 7 10 * palette_similarity out.data y.data +
      mkRat 3 10 * (if gshape out.data = gshape y.data then 1 else 0) := by
  simp [pair_score, hap, he]

theorem pair_score_bounds (scroll : List Step) (x y : Grid) :
    0 ≤ pair_score scroll x y ∧ pair_score scroll x y ≤ 1 := by
  cases hap : apply_scroll scroll x with
  | error e => simp [pair_score_err scroll x y e hap]
  | ok out =>
    by_cases he : out.data = y.data
    · simp [pair_score_exact scroll x y out hap he]
    · rw [pair_score_soft scroll x y out hap he]
      obtain ⟨h0, h1⟩ := palette_similarity_bounds out.data y.data
      have hmk7 : (mkRat 7 10 : ℚ) = 7 / 10 := by
        rw [Rat.mkRat_eq_div]
        norm_num
      have hmk3 : (mkRat 3 10 : ℚ) = 3 / 10 := by
        rw [Rat.mkRat_eq_div]
        norm_num
      rw [hmk7, hmk3]
      by_cases hs : gshape out.data = gshape y.data
      · simp only [hs, if_true]
        constructor <;> nlinarith
      · simp only [hs, if_false]
        constructor <;> nlinarith

theorem sum_bounds_of_unit (l : List ℚ) (h : ∀ q ∈ l, 0 ≤ q ∧ q ≤ 1) :
    0 ≤ l.sum ∧ l.sum ≤ (l.length : ℚ) := by
  induction l with
  | nil => simp
  | cons q rest ih =>
    obtain ⟨hq0, hq1⟩ := h q (List.mem_cons_self q rest)
    obtain ⟨hr0, hr1⟩ := ih (fun p hp => h p (List.mem_cons_of_mem q hp))
    simp only [List.sum_cons, List.length_cons]
    push_cast
    constructor <;> linarith

theorem sum_of_ones (l : List ℚ) (h : ∀ q ∈ l, q = 1) : l.sum = (l.length : ℚ) := by
  induction l with
  | nil => simp
  | cons q rest ih =>
    rw [List.sum_cons, h q (List.mem_cons_self q rest),
      ih (fun p hp => h p (List.mem_cons_of_mem q hp))]
    simp only [List.length_cons]
    push_cast
    ring

theorem score_prog_bounds (scroll : List Step) (xs ys : List Grid) :
    0 ≤ score_prog scroll xs ys ∧ score_prog scroll xs ys ≤ 1 := by
  unfold score_prog
  by_cases he : ((xs.zip ys).map (fun p => pair_score scroll p.1 p.2)).isEmpty
  · simp [he]
  · rw [if_neg he]
    obtain ⟨hs0, hs1⟩ := sum_bounds_of_unit
      ((xs.zip ys).map (fun p => pair_score scroll p.1 p.2))
      (by
        intro q hq
        obtain ⟨p, _, hpq⟩ := List.mem_map.mp hq
        exact hpq ▸ pair_score_bounds scroll p.1 p.2)
    have hlen : 0 < ((xs.zip ys).map (fun p => pair_score scroll p.1 p.2)).length := by
      cases hl : (xs.zip ys).map (fun p => pair_score scroll p.1 p.2) with
      | nil => rw [hl] at he; simp at he
      | cons a l => simp [hl]
    have hlenq : (0 : ℚ) < ((xs.zip ys).map (fun p => pair_score scroll p.1 p.2)).length := by
      exact_mod_cast hlen
    constructor
    · positivity
    · rw [div_le_one hlenq]
      exact hs1

/-- C4: score_prog is the arithmetic mean of the per-pair scores, where an
exactly matching pair scores 1 and any other successfully executed pair
scores 0.7 palette similarity plus 0.3 shape similarity; the result lies in
the unit interval, equals 1 when there is at least one pair and every pair
matches exactly, and equals 0 for an empty pair list. -/
theorem C4_score_prog_spec (scroll : List Step) (xs ys : List Grid) :
    (0 ≤ score_prog scroll xs ys ∧ score_prog scroll xs ys ≤ 1) ∧
    score_prog scroll xs ys =
      (if xs.zip ys = [] then 0
       else ((xs.zip ys).map (fun p => pair_score scroll p.1 p.2)).sum /
         (((xs.zip ys).map (fun p => pair_score scroll p.1 p.2)).length : ℚ)) ∧
    (xs.zip ys = [] → score_prog scroll xs ys = 0) ∧
    (xs.zip ys ≠ [] →
      (∀ p ∈ xs.zip ys, ∃ out, apply_scroll scroll p.1 = .ok out ∧ out.data = p.2.data) →
      score_prog scroll xs ys = 1) ∧
    (∀ (x y out : Grid), apply_scroll scroll x = .ok out →
      (out.data = y.data → pair_score scroll x y = 1) ∧
      (out.data ≠ y.data → pair_score scroll x y =
        mkRat 7 10 * palette_similarity out.data y.data +
        mkRat 3 10 * (if gshape out.data = gshape y.data then 1 else 0))) := by
  refine ⟨score_prog_bounds scroll xs ys, ?_, ?_, ?_,
    fun x y out hap =>
      ⟨fun he => pair_score_exact scroll x y out hap he,
       fun he => pair_score_soft scroll x y out hap he⟩⟩
  · by_cases hz : xs.zip ys = []
    · simp [score_prog, hz]
    · rw [if_neg hz]
      unfold score_prog
      rw [if_neg (by simp [hz])]
  · intro hz
    simp [score_prog, hz]
  · intro hz hall
    have hones : ∀ q ∈ (xs.zip ys).map (fun p => pair_score scroll p.1 p.2), q = 1 := by
      intro q hq
      obtain ⟨p, hp, hpq⟩ := List.mem_map.mp hq
      obtain ⟨out, hap, hdata⟩ := hall p hp
      rw [← hpq]
      exact pair_score_exact scroll p.1 p.2 out hap hdata
    unfold score_prog
    rw [if_neg (by simp [hz]), sum_of_ones _ hones]
    refine div_self ?_
    have : ((xs.zip ys).map (fun p => pair_score scroll p.1 p.2)).length ≠ 0 := by
      rw [List.length_map]
      intro hlz
      exact hz (List.length_eq_zero.mp hlz)
    exact_mod_cast this

/-- C4 witness: one exactly matching pair under the empty scroll scores 1. -/
theorem C4_witness : score_prog [] [⟨[[1]], []⟩] [⟨[[1]], []⟩] = 1 := by
  refine (C4_score_prog_spec [] [⟨[[1]], []⟩] [⟨[[1]], []⟩]).2.2.2.1 (by decide) ?_
  intro p hp
  simp only [List.zip_cons_cons, List.zip_nil_right, List.mem_singleton] at hp
  subst hp
  exact ⟨⟨[[1]], []⟩, rfl, rfl⟩

/-- C6: a pair whose execution raises is scored 0 while score_prog stays the
total function averaging every pair of the zipped list, so an execution
error never propagates out of scoring. -/
theorem C6_error_pairs_score_zero (scroll : List Step) (xs ys : List Grid) :
    (∀ (x y : Grid) (e : String), apply_scroll scroll x = .error e →
      pair_score scroll x y = 0) ∧
    score_prog scroll xs ys =
      (if xs.zip ys = [] then 0
       else ((xs.zip ys).map (fun p => pair_score scroll p.1 p.2)).sum /
         ((xs.zip ys).length : ℚ)) := by
  constructor
  · exact fun x y e h => pair_score_err scroll x y e h
  · by_cases hz : xs.zip ys = []
    · simp [score_prog, hz]
    · rw [if_neg hz]
      unfold score_prog
      rw [if_neg (by simp [hz]), List.length_map]

/-- C6 witness: a FLIP with axis 2 raises on execution, the pair scores 0,
and a two-pair task with one such failure still averages both pairs. -/
theorem C6_witness :
    pair_score [mkFLIP 2] ⟨[[1]], []⟩ ⟨[[1]], []⟩ = 0 ∧
    score_prog [mkFLIP 2] [⟨[[1]], []⟩] [⟨[[1]], []⟩] = 0 :=
  ⟨(C6_error_pairs_score_zero [mkFLIP 2] [] []).1 ⟨[[1]], []⟩ ⟨[[1]], []⟩
      "axis must be 0 or 1" rfl,
   by with_unfolding_all rfl⟩

/-- C3 counterexample: a one-pair task that is a pure cellwise color
permutation (the swap of colors 1 and 2) with identical shapes, where the
seeded sorted-value bijection is the identity mapping: the seeded REMAP
scroll scores 13/20, not 1, and eval_scroll reports a mismatch. -/
theorem C3_counterexample :
    ([[2, 2, 1]] : Mat) =
      ([[1, 1, 2]] : Mat).map (fun r => r.map (fun v =>
        if v = 1 then 2 else if v = 2 then 1 else v)) ∧
    infer_remap [[1, 1, 2]] [[2, 2, 1]] = some [(1, 1), (2, 2)] ∧
    score_prog [mkREMAP [(1, 1), (2, 2)]] [⟨[[1, 1, 2]], []⟩] [⟨[[2, 2, 1]], []⟩] =
      mkRat 13 20 ∧
    (mkRat 13 20 : ℚ) ≠ 1 ∧
    eval_scroll [mkREMAP [(1, 1), (2, 2)]] [([[1, 1, 2]], [[2, 2, 1]])] =
      .ok (false, "mismatch on pair 1") :=
  ⟨rfl, rfl, by with_unfolding_all rfl, by decide, rfl⟩

theorem from_list_ok (a : Mat) (g : Grid) (h : from_list a = .ok g) : g = ⟨a, []⟩ := by
  unfold from_list at h
  split_ifs at h
  injection h with h
  exact h.symm

theorem mapE_ok_zip (f h : Mat × Mat → Except String Grid) (l : List (Mat × Mat))
    (xs ys : List Grid) (hx : mapE f l = .ok xs) (hy : mapE h l = .ok ys) :
    ∀ q ∈ xs.zip ys, ∃ p ∈ l, f p = .ok q.1 ∧ h p = .ok q.2 := by
  induction l generalizing xs ys with
  | nil =>
    injection hx with hx
    injection hy with hy
    subst hx
    subst hy
    simp
  | cons p rest ih =>
    cases hfp : f p with
    | error e => rw [mapE, hfp] at hx; exact absurd hx (by simp)
    | ok g =>
      rw [mapE, hfp] at hx
      cases hfr : mapE f rest with
      | error e => rw [hfr] at hx; exact absurd hx (by simp)
      | ok gs =>
        rw [hfr] at hx
        injection hx with hx
        cases hhp : h p with
        | error e => rw [mapE, hhp] at hy; exact absurd hy (by simp)
        | ok g2 =>
          rw [mapE, hhp] at hy
          cases hhr : mapE h rest with
          | error e => rw [hhr] at hy; exact absurd hy (by simp)
          | ok gs2 =>
            rw [hhr] at hy
            injection hy with hy
            subst hx
            subst hy
            intro q hq
            rw [List.zip_cons_cons] at hq
            rcases List.mem_cons.mp hq with rfl | hq2
            · exact ⟨p, List.mem_cons_self p rest, hfp, hhp⟩
            · obtain ⟨p2, hp2, hf2, hh2⟩ := ih gs gs2 hfr hhr q hq2
              exact ⟨p2, List.mem_cons_of_mem p hp2, hf2, hh2⟩

theorem mapE_ok_length (f : Mat × Mat → Except String Grid) (l : List (Mat × Mat))
    (xs : List Grid) (hx : mapE f l = .ok xs) : xs.length = l.length := by
  induction l generalizing xs with
  | nil =>
    injection hx with hx
    subst hx
    rfl
  | cons p rest ih =>
    cases hfp : f p with
    | error e => rw [mapE, hfp] at hx; exact absurd hx (by simp)
    | ok g =>
      rw [mapE, hfp] at hx
      cases hfr : mapE f rest with
      | error e => rw [hfr] at hx; exact absurd hx (by simp)
      | ok gs =>
        rw [hfr] at hx
        injection hx with hx
        subst hx
        simp [ih gs hfr]

theorem score_prog_all_exact (scroll : List Step) (xs ys : List Grid)
    (hz : xs.zip ys ≠ [])
    (hall : ∀ p ∈ xs.zip ys, ∃ out, apply_scroll scroll p.1 = .ok out ∧
      out.data = p.2.data) :
    score_prog scroll xs ys = 1 := by
  have hones : ∀ q ∈ (xs.zip ys).map (fun p => pair_score scroll p.1 p.2), q = 1 := by
    intro q hq
    obtain ⟨p, hp, hpq⟩ := List.mem_map.mp hq
    obtain ⟨out, hap, hdata⟩ := hall p hp
    rw [← hpq]
    exact pair_score_exact scroll p.1 p.2 out hap hdata
  unfold score_prog
  rw [if_neg (by simp [hz]), sum_of_ones _ hones]
  refine div_self ?_
  have : ((xs.zip ys).map (fun p => pair_score scroll p.1 p.2)).length ≠ 0 := by
    rw [List.length_map]
    intro hlz
    exact hz (List.length_eq_zero.mp hlz)
  exact_mod_cast this

theorem eval_pairs_exact (scroll : List Step) (l : List (Grid × Grid))
    (h : ∀ q ∈ l, ∃ out, apply_scroll scroll q.1 = .ok out ∧ out.data = q.2.data) :
    ∀ i, eval_pairs scroll l i = .ok (true, "exact match") := by
  induction l with
  | nil => intro i; rfl
  | cons q rest ih =>
    intro i
    obtain ⟨out, hap, hdata⟩ := h q (List.mem_cons_self q rest)
    obtain ⟨a, b⟩ := q
    have hstep : eval_pairs scroll ((a, b) :: rest) i =
        if out.data = b.data then eval_pairs scroll rest (i + 1)
        else .ok (false, "mismatch on pair " ++ toString (i + 1)) := by
      rw [eval_pairs, hap]
    rw [hstep, if_pos hdata]
    exact ih (fun p hp => h p (List.mem_cons_of_mem _ hp)) (i + 1)

/-- C3 amended: for a task with at least one training pair whose every
output is exactly the cellwise application of the sorted-value bijection m
inferred from the first pair (in particular a pure order-preserving
recoloring with identical shapes), the seeded single-step REMAP scroll
scores 1.0 under score_prog and eval_scroll reports success. -/
theorem C3_seeded_remap_on_consistent_tasks (train : List (Mat × Mat)) (x0 y0 : Mat)
    (rest : List (Mat × Mat)) (m : List (Int × Int)) (xs ys : List Grid)
    (htrain : train = (x0, y0) :: rest)
    (h_m : infer_remap x0 y0 = some m)
    (hxs : mapE (fun p => from_list p.1) train = .ok xs)
    (hys : mapE (fun p => from_list p.2) train = .ok ys)
    (hmap : ∀ p ∈ train, p.2 = remapMat m p.1) :
    score_prog [mkREMAP m] xs ys = 1 ∧
    eval_scroll [mkREMAP m] train = .ok (true, "exact match") := by
  have hpairs : ∀ q ∈ xs.zip ys, ∃ out, apply_scroll [mkREMAP m] q.1 = .ok out ∧
      out.data = q.2.data := by
    intro q hq
    obtain ⟨p, hp, hf, hh⟩ := mapE_ok_zip _ _ train xs ys hxs hys q hq
    have h1 := from_list_ok p.1 q.1 hf
    have h2 := from_list_ok p.2 q.2 hh
    refine ⟨op_REMAP q.1 m, rfl, ?_⟩
    rw [h1, h2]
    show remapMat m p.1 = p.2
    exact (hmap p hp).symm
  have hzlen : (xs.zip ys).length = train.length := by
    rw [List.length_zip, mapE_ok_length _ train xs hxs, mapE_ok_length _ train ys hys]
    exact min_self _
  have hz : xs.zip ys ≠ [] := by
    intro hnil
    rw [hnil, htrain] at hzlen
    simp at hzlen
  constructor
  · exact score_prog_all_exact [mkREMAP m] xs ys hz hpairs
  · unfold eval_scroll
    rw [hxs, hys]
    exact eval_pairs_exact [mkREMAP m] (xs.zip ys) hpairs 0

/-- C3 witness: a concrete order-preserving recoloring task where the
seeded bijection coincides with the transformation. -/
theorem C3_witness :
    score_prog [mkREMAP [(1, 2), (2, 3)]] [⟨[[1, 2]], []⟩] [⟨[[2, 3]], []⟩] = 1 ∧
    eval_scroll [mkREMAP [(1, 2), (2, 3)]] [([[1, 2]], [[2, 3]])] =
      .ok (true, "exact match") :=
  C3_seeded_remap_on_consistent_tasks [([[1, 2]], [[2, 3]])] [[1, 2]] [[2, 3]] []
    [(1, 2), (2, 3)] [⟨[[1, 2]], []⟩] [⟨[[2, 3]], []⟩] rfl rfl rfl rfl (by decide)

theorem step_entry_seen_sub (xs ys : List Grid) (st : List Cand × List KeyT)
    (c : List Step) : st.2 ⊆ (step_entry xs ys st c).2 := by
  unfold step_entry
  by_cases h : progKey c ∈ st.2
  · rw [if_pos h]
    exact fun k hk => hk
  · rw [if_neg h]
    exact List.subset_append_left st.2 [progKey c]

theorem foldl_entry_seen_sub (xs ys : List Grid) (cs : List (List Step)) :
    ∀ st : List Cand × List KeyT, st.2 ⊆ (cs.foldl (step_entry xs ys) st).2 := by
  induction cs with
  | nil => intro st; exact fun k hk => hk
  | cons c cs ih =>
    intro st
    rw [List.foldl_cons]
    exact fun k hk => ih (step_entry xs ys st c) (step_entry_seen_sub xs ys st c hk)

theorem foldl_entry_pool_mem (xs ys : List Grid) (cs : List (List Step)) :
    ∀ st : List Cand × List KeyT, ∀ e ∈ (cs.foldl (step_entry xs ys) st).1,
      e ∈ st.1 ∨ (e.1 ∈ cs ∧ e.2 = score_prog e.1 xs ys ∧ progKey e.1 ∉ st.2 ∧
        progKey e.1 ∈ (cs.foldl (step_entry xs ys) st).2) := by
  induction cs with
  | nil => intro st e he; exact Or.inl he
  | cons c cs ih =>
    intro st e he
    rw [List.foldl_cons] at he
    rcases ih (step_entry xs ys st c) e he with hin | ⟨hc, hs, hnk, hk⟩
    · unfold step_entry at hin
      by_cases h : progKey c ∈ st.2
      · rw [if_pos h] at hin
        exact Or.inl hin
      · rw [if_neg h] at hin
        rcases List.mem_append.mp hin with hin2 | hin2
        · exact Or.inl hin2
        · rcases List.mem_singleton.mp hin2 with rfl
          refine Or.inr ⟨List.mem_cons_self c cs, rfl, h, ?_⟩
          rw [List.foldl_cons]
          refine foldl_entry_seen_sub xs ys cs (step_entry xs ys st c) ?_
          unfold step_entry
          rw [if_neg h]
          exact List.mem_append_right st.2 (List.mem_singleton.mpr rfl)
    · refine Or.inr ⟨List.mem_cons_of_mem c hc, hs, ?_, by rw [List.foldl_cons]; exact hk⟩
      intro hmem
      exact hnk (step_entry_seen_sub xs ys st c hmem)

theorem foldl_entry_seen_mem (xs ys : List Grid) (cs : List (List Step)) :
    ∀ st : List Cand × List KeyT, ∀ k ∈ (cs.foldl (step_entry xs ys) st).2,
      k ∈ st.2 ∨ ∃ c ∈ cs, k = progKey c := by
  induction cs with
  | nil => intro st k hk; exact Or.inl hk
  | cons c cs ih =>
    intro st k hk
    rw [List.foldl_cons] at hk
    rcases ih (step_entry xs ys st c) k hk with hin | ⟨c2, hc2, hk2⟩
    · unfold step_entry at hin
      by_cases h : progKey c ∈ st.2
      · rw [if_pos h] at hin
        exact Or.inl hin
      · rw [if_neg h] at hin
        rcases List.mem_append.mp hin with hin2 | hin2
        · exact Or.inl hin2
        · exact Or.inr ⟨c, List.mem_cons_self c cs, List.mem_singleton.mp hin2⟩
    · exact Or.inr ⟨c2, List.mem_cons_of_mem c hc2, hk2⟩

theorem foldl_entry_pool_sub (xs ys : List Grid) (cs : List (List Step)) :
    ∀ st : List Cand × List KeyT, ∃ l, (cs.foldl (step_entry xs ys) st).1 = st.1 ++ l := by
  induction cs with
  | nil => intro st; exact ⟨[], by simp⟩
  | cons c cs ih =>
    intro st
    rw [List.foldl_cons]
    by_cases h : progKey c ∈ st.2
    · have hst : step_entry xs ys st c = st := by
        unfold step_entry
        rw [if_pos h]
      rw [hst]
      exact ih st
    · have hst : step_entry xs ys st c =
          (st.1 ++ [(c, score_prog c xs ys)], st.2 ++ [progKey c]) := by
        unfold step_entry
        rw [if_neg h]
      rw [hst]
      obtain ⟨l, hl⟩ := ih (st.1 ++ [(c, score_prog c xs ys)], st.2 ++ [progKey c])
      refine ⟨(c, score_prog c xs ys) :: l, ?_⟩
      rw [hl]
      simp

theorem foldl_entry_empty (xs ys : List Grid) (cs : List (List Step)) :
    ∀ seen0 : List KeyT, (cs.foldl (step_entry xs ys) ([], seen0)).1 = [] →
      ∀ c ∈ cs, progKey c ∈ seen0 := by
  induction cs with
  | nil => intro seen0 _ c hc; exact absurd hc (List.not_mem_nil c)
  | cons c cs ih =>
    intro seen0 hnil c2 hc2
    rw [List.foldl_cons] at hnil
    by_cases h : progKey c ∈ seen0
    · have hst : step_entry xs ys ([], seen0) c = ([], seen0) := by
        unfold step_entry
        rw [if_pos h]
      rw [hst] at hnil
      rcases List.mem_cons.mp hc2 with rfl | hc3
      · exact h
      · exact ih seen0 hnil c2 hc3
    · exfalso
      have hst : step_entry xs ys ([], seen0) c =
          ([(c, score_prog c xs ys)], seen0 ++ [progKey c]) := by
        unfold step_entry
        rw [if_neg h]
        rfl
      rw [hst] at hnil
      obtain ⟨l, hl⟩ := foldl_entry_pool_sub xs ys cs
        ([(c, score_prog c xs ys)], seen0 ++ [progKey c])
      rw [hnil] at hl
      exact List.cons_ne_nil _ _ hl.symm

theorem mem_insDesc (e x : Cand) (l : List Cand) :
    x ∈ insDesc e l ↔ x = e ∨ x ∈ l := by
  induction l with
  | nil => simp [insDesc]
  | cons a l ih =>
    unfold insDesc
    by_cases h : a.2 ≤ e.2
    · rw [if_pos h]
      simp
    · rw [if_neg h]
      rw [List.mem_cons, ih, List.mem_cons]
      tauto

theorem mem_sortDesc (x : Cand) (l : List Cand) : x ∈ sortDesc l ↔ x ∈ l := by
  induction l with
  | nil => simp [sortDesc]
  | cons a l ih =>
    rw [sortDesc, mem_insDesc, ih, List.mem_cons]

theorem length_insDesc (e : Cand) (l : List Cand) :
    (insDesc e l).length = l.length + 1 := by
  induction l with
  | nil => rfl
  | cons a l ih =>
    unfold insDesc
    by_cases h : a.2 ≤ e.2
    · rw [if_pos h]
      simp
    · rw [if_neg h]
      simp [ih]

theorem length_sortDesc (l : List Cand) : (sortDesc l).length = l.length := by
  induction l with
  | nil => rfl
  | cons a l ih =>
    rw [sortDesc, length_insDesc, ih, List.length_cons]

theorem sortDesc_ne_nil (l : List Cand) (h : l ≠ []) : sortDesc l ≠ [] := by
  intro hnil
  apply h
  have := length_sortDesc l
  rw [hnil] at this
  exact List.length_eq_zero.mp this.symm

theorem take_ne_nil_of_pos (l : List Cand) (n : Nat) (h : l ≠ []) (hn : 1 ≤ n) :
    l.take n ≠ [] := by
  intro hnil
  rcases List.take_eq_nil_iff.mp hnil with h0 | h0
  · omega
  · exact h h0

theorem mem_candidates (pool : List Cand) (c : List Step) :
    c ∈ candidates pool ↔ ∃ q ∈ pool, ∃ mv ∈ op_space, c = q.1 ++ mv := by
  unfold candidates
  rw [List.mem_flatMap]
  constructor
  · intro ⟨q, hq, hc⟩
    obtain ⟨mv, hmv, hceq⟩ := List.mem_map.mp hc
    exact ⟨q, hq, mv, hmv, hceq.symm⟩
  · intro ⟨q, hq, mv, hmv, hceq⟩
    exact ⟨q, hq, List.mem_map.mpr ⟨mv, hmv, hceq.symm⟩⟩

theorem stepKey_inj (s t : Step) (h : (s.op, stepItems s) = (t.op, stepItems t)) :
    s = t := by
  obtain ⟨so, sk, sa, sm⟩ := s
  obtain ⟨t0, tk, ta, tm⟩ := t
  injection h with hop hitems
  subst hop
  unfold stepItems at hitems
  rcases sk with _ | k1 <;> rcases sa with _ | a1 <;> rcases sm with _ | m1 <;>
    rcases tk with _ | k2 <;> rcases ta with _ | a2 <;> rcases tm with _ | m2 <;>
    simp_all

theorem progKey_inj : ∀ (p q : List Step), progKey p = progKey q → p = q := by
  intro p
  induction p with
  | nil =>
    intro q h
    cases q with
    | nil => rfl
    | cons t q => simp [progKey] at h
  | cons s p ih =>
    intro q h
    cases q with
    | nil => simp [progKey] at h
    | cons t q =>
      unfold progKey at h
      rw [List.map_cons, List.map_cons] at h
      injection h with h1 h2
      rw [stepKey_inj s t h1, ih q h2]

theorem op_space_cases : ∀ mv ∈ op_space,
    mv = [mkROT90 1] ∨ mv = [mkROT90 2] ∨ mv = [mkROT90 3] ∨
    mv = [mkFLIP 0] ∨ mv = [mkFLIP 1] ∨ mv = [mkTRANSPOSE] ∨
    mv = [mkROT90 1, mkFLIP 0] ∨ mv = [mkROT90 1, mkFLIP 1] ∨
    mv = [mkROT90 2, mkFLIP 0] ∨ mv = [mkROT90 2, mkFLIP 1] ∨
    mv = [mkROT90 3, mkFLIP 0] ∨ mv = [mkROT90 3, mkFLIP 1] := by
  decide

theorem op_space_ne_nil : ∀ mv ∈ op_space, mv ≠ [] := by decide

theorem double_mem_op_space : [mkROT90 1, mkFLIP 0] ∈ op_space := by decide

theorem op_space_hashable : ∀ mv ∈ op_space, keyHashable mv = true := by decide

theorem append_singleton_inj {α : Type} (l1 l2 : List α) (x y : α)
    (h : l1 ++ [x] = l2 ++ [y]) : l1 = l2 ∧ x = y := by
  obtain ⟨h1, h2⟩ := List.append_inj' h rfl
  refine ⟨h1, ?_⟩
  injection h2

theorem append_pair_inj {α : Type} (l1 l2 : List α) (x1 x2 y1 y2 : α)
    (h : l1 ++ [x1, x2] = l2 ++ [y1, y2]) : l1 = l2 ∧ x1 = y1 ∧ x2 = y2 := by
  obtain ⟨h1, h2⟩ := List.append_inj' h rfl
  refine ⟨h1, ?_, ?_⟩
  · injection h2
  · injection h2 with _ h3
    injection h3

theorem stepN_succ_out (xs ys : List Grid) (beam : Nat) :
    ∀ (n : Nat) (st : List Cand × List KeyT),
      stepN xs ys beam (n + 1) st = stepState xs ys beam (stepN xs ys beam n st) := by
  intro n
  induction n with
  | zero => intro st; rfl
  | succ n ih =>
    intro st
    show stepN xs ys beam (n + 1) (stepState xs ys beam st) = _
    rw [ih (stepState xs ys beam st)]
    rfl

theorem pools_zero (xs ys : List Grid) (beam : Nat) (p0 : List Cand) :
    pools xs ys beam p0 0 = (p0, []) := rfl

theorem pools_succ (xs ys : List Grid) (beam : Nat) (p0 : List Cand) (n : Nat) :
    pools xs ys beam p0 (n + 1) = stepState xs ys beam (pools xs ys beam p0 n) :=
  stepN_succ_out xs ys beam n (p0, [])

theorem pools_mem (xs ys : List Grid) (beam : Nat) (p0 : List Cand) (n : Nat) :
    ∀ e ∈ (pools xs ys beam p0 (n + 1)).1,
      ∃ q ∈ (pools xs ys beam p0 n).1, ∃ mv ∈ op_space,
        e.1 = q.1 ++ mv ∧ progKey e.1 ∉ (pools xs ys beam p0 n).2 ∧
        progKey e.1 ∈ (pools xs ys beam p0 (n + 1)).2 := by
  intro e he
  rw [pools_succ] at he ⊢
  unfold stepState at he ⊢
  have he2 : e ∈ (roundP xs ys (pools xs ys beam p0 n).1 (pools xs ys beam p0 n).2).1 :=
    (mem_sortDesc e _).mp (List.mem_of_mem_take he)
  unfold roundP at he2 ⊢
  rcases foldl_entry_pool_mem xs ys _ _ e he2 with hin | ⟨hc, _, hnk, hk⟩
  · exact absurd hin (List.not_mem_nil e)
  · obtain ⟨q, hq, mv, hmv, hceq⟩ := (mem_candidates _ _).mp hc
    exact ⟨q, hq, mv, hmv, hceq, hnk, hk⟩

theorem pools_seen_sub_succ (xs ys : List Grid) (beam : Nat) (p0 : List Cand) (n : Nat) :
    (pools xs ys beam p0 n).2 ⊆ (pools xs ys beam p0 (n + 1)).2 := by
  rw [pools_succ]
  unfold stepState roundP
  exact foldl_entry_seen_sub xs ys (candidates (pools xs ys beam p0 n).1)
    ([], (pools xs ys beam p0 n).2)

theorem pools_seen_mono (xs ys : List Grid) (beam : Nat) (p0 : List Cand) :
    ∀ j n, j ≤ n → (pools xs ys beam p0 j).2 ⊆ (pools xs ys beam p0 n).2 := by
  intro j n
  induction n with
  | zero =>
    intro h
    rw [Nat.le_zero.mp h]
    exact fun k hk => hk
  | succ n ih =>
    intro h
    by_cases hj : j = n + 1
    · rw [hj]
      exact fun k hk => hk
    · have hjn : j ≤ n := by omega
      exact fun k hk => pools_seen_sub_succ xs ys beam p0 n (ih hjn hk)

theorem pools_seen_src (xs ys : List Grid) (beam : Nat) (p0 : List Cand) :
    ∀ n, ∀ k ∈ (pools xs ys beam p0 n).2,
      ∃ j, j < n ∧ ∃ q ∈ (pools xs ys beam p0 j).1, ∃ mv ∈ op_space,
        k = progKey (q.1 ++ mv) := by
  intro n
  induction n with
  | zero =>
    intro k hk
    rw [pools_zero] at hk
    exact absurd hk (List.not_mem_nil k)
  | succ n ih =>
    intro k hk
    rw [pools_succ] at hk
    unfold stepState roundP at hk
    rcases foldl_entry_seen_mem xs ys _ _ k hk with hin | ⟨c, hc, hkc⟩
    · obtain ⟨j, hj, rest⟩ := ih k hin
      exact ⟨j, Nat.lt_succ_of_lt hj, rest⟩
    · obtain ⟨q, hq, mv, hmv, hceq⟩ := (mem_candidates _ _).mp hc
      exact ⟨n, Nat.lt_succ_self n, q, hq, mv, hmv, by rw [hkc, hceq]⟩

theorem pools_key_in_seen (xs ys : List Grid) (beam : Nat) (p0 : List Cand) (n : Nat) :
    ∀ e ∈ (pools xs ys beam p0 (n + 1)).1,
      progKey e.1 ∈ (pools xs ys beam p0 (n + 1)).2 := by
  intro e he
  obtain ⟨_, _, _, _, _, _, hk⟩ := pools_mem xs ys beam p0 n e he
  exact hk

theorem pools_fresh_double (xs ys : List Grid) (beam : Nat) (p0 : List Cand)
    (hp0 : ∀ q ∈ p0, q.1 = ([] : List Step)) :
    ∀ n, ∀ e ∈ (pools xs ys beam p0 (n + 1)).1,
      progKey (e.1 ++ [mkROT90 1, mkFLIP 0]) ∉ (pools xs ys beam p0 (n + 1)).2 := by
  intro n e he hcon
  obtain ⟨q, hq, mv, hmv, heq, hfresh, _⟩ := pools_mem xs ys beam p0 n e he
  have hene : e.1 ≠ [] := by
    rw [heq]
    intro hnil
    exact op_space_ne_nil mv hmv (List.append_eq_nil.mp hnil).2
  obtain ⟨j, hj, q', hq', mv', hmv', hkeq⟩ :=
    pools_seen_src xs ys beam p0 (n + 1) _ hcon
  have heq2 : e.1 ++ [mkROT90 1, mkFLIP 0] = q'.1 ++ mv' := progKey_inj _ _ hkeq
  have hjn : j ≤ n := by omega
  have factA : ∀ j2, j2 ≤ n → ∀ q2 ∈ (pools xs ys beam p0 j2).1, q2.1 ≠ e.1 := by
    intro j2 hj2 q2 hq2 hqe
    cases j2 with
    | zero =>
      rw [pools_zero] at hq2
      exact hene (hqe ▸ hp0 q2 hq2)
    | succ j3 =>
      have hk := pools_key_in_seen xs ys beam p0 j3 q2 hq2
      rw [hqe] at hk
      exact hfresh (pools_seen_mono xs ys beam p0 (j3 + 1) n hj2 hk)
  have hsplit : e.1 ++ [mkROT90 1, mkFLIP 0] = (e.1 ++ [mkROT90 1]) ++ [mkFLIP 0] := by
    rw [List.append_assoc]
    rfl
  rcases op_space_cases mv' hmv' with h | h | h | h | h | h | h | h | h | h | h | h
  · subst h
    rw [hsplit] at heq2
    obtain ⟨_, hx⟩ := append_singleton_inj _ _ _ _ heq2
    simp [mkFLIP, mkROT90] at hx
  · subst h
    rw [hsplit] at heq2
    obtain ⟨_, hx⟩ := append_singleton_inj _ _ _ _ heq2
    simp [mkFLIP, mkROT90] at hx
  · subst h
    rw [hsplit] at heq2
    obtain ⟨_, hx⟩ := append_singleton_inj _ _ _ _ heq2
    simp [mkFLIP, mkROT90] at hx
  · -- mv' is the single flip along axis 0: q' extends e.1 by one rotation
    subst h
    rw [hsplit] at heq2
    obtain ⟨hq'e, _⟩ := append_singleton_inj _ _ _ _ heq2
    cases j with
    | zero =>
      rw [pools_zero] at hq'
      have := hp0 q' hq'
      rw [this] at hq'e
      exact List.cons_ne_nil _ _ (List.append_eq_nil.mp hq'e).2
    | succ j2 =>
      obtain ⟨q'', hq'', mv'', hmv'', heq'', _, _⟩ :=
        pools_mem xs ys beam p0 j2 q' hq'
      have hcomb : q''.1 ++ mv'' = e.1 ++ [mkROT90 1] := by
        rw [← heq'', hq'e]
      have hj2n : j2 ≤ n := by omega
      rcases op_space_cases mv'' hmv'' with g | g | g | g | g | g | g | g | g | g | g | g
      · subst g
        obtain ⟨hqe2, _⟩ := append_singleton_inj _ _ _ _ hcomb
        exact factA j2 hj2n q'' hq'' hqe2
      · subst g
        obtain ⟨_, hx⟩ := append_singleton_inj _ _ _ _ hcomb
        simp [mkROT90] at hx
      · subst g
        obtain ⟨_, hx⟩ := append_singleton_inj _ _ _ _ hcomb
        simp [mkROT90] at hx
      · subst g
        obtain ⟨_, hx⟩ := append_singleton_inj _ _ _ _ hcomb
        simp [mkFLIP, mkROT90] at hx
      · subst g
        obtain ⟨_, hx⟩ := append_singleton_inj _ _ _ _ hcomb
        simp [mkFLIP, mkROT90] at hx
      · subst g
        obtain ⟨_, hx⟩ := append_singleton_inj _ _ _ _ hcomb
        simp [mkTRANSPOSE, mkROT90] at hx
      · subst g
        rw [show q''.1 ++ [mkROT90 1, mkFLIP 0] = (q''.1 ++ [mkROT90 1]) ++ [mkFLIP 0] from
          by rw [List.append_assoc]; rfl] at hcomb
        obtain ⟨_, hx⟩ := append_singleton_inj _ _ _ _ hcomb
        simp [mkFLIP, mkROT90] at hx
      · subst g
        rw [show q''.1 ++ [mkROT90 1, mkFLIP 1] = (q''.1 ++ [mkROT90 1]) ++ [mkFLIP 1] from
          by rw [List.append_assoc]; rfl] at hcomb
        obtain ⟨_, hx⟩ := append_singleton_inj _ _ _ _ hcomb
        simp [mkFLIP, mkROT90] at hx
      · subst g
        rw [show q''.1 ++ [mkROT90 2, mkFLIP 0] = (q''.1 ++ [mkROT90 2]) ++ [mkFLIP 0] from
          by rw [List.append_assoc]; rfl] at hcomb
        obtain ⟨_, hx⟩ := append_singleton_inj _ _ _ _ hcomb
        simp [mkFLIP, mkROT90] at hx
      · subst g
        rw [show q''.1 ++ [mkROT90 2, mkFLIP 1] = (q''.1 ++ [mkROT90 2]) ++ [mkFLIP 1] from
          by rw [List.append_assoc]; rfl] at hcomb
        obtain ⟨_, hx⟩ := append_singleton_inj _ _ _ _ hcomb
        simp [mkFLIP, mkROT90] at hx
      · subst g
        rw [show q''.1 ++ [mkROT90 3, mkFLIP 0] = (q''.1 ++ [mkROT90 3]) ++ [mkFLIP 0] from
          by rw [List.append_assoc]; rfl] at hcomb
        obtain ⟨_, hx⟩ := append_singleton_inj _ _ _ _ hcomb
        simp [mkFLIP, mkROT90] at hx
      · subst g
        rw [show q''.1 ++ [mkROT90 3, mkFLIP 1] = (q''.1 ++ [mkROT90 3]) ++ [mkFLIP 1] from
          by rw [List.append_assoc]; rfl] at hcomb
        obtain ⟨_, hx⟩ := append_singleton_inj _ _ _ _ hcomb
        simp [mkFLIP, mkROT90] at hx
  · subst h
    rw [hsplit] at heq2
    obtain ⟨_, hx⟩ := append_singleton_inj _ _ _ _ heq2
    simp [mkFLIP] at hx
  · subst h
    rw [hsplit] at heq2
    obtain ⟨_, hx⟩ := append_singleton_inj _ _ _ _ heq2
    simp [mkFLIP, mkTRANSPOSE] at hx
  · subst h
    obtain ⟨hq'e, _, _⟩ := append_pair_inj _ _ _ _ _ _ heq2
    exact factA j hjn q' hq' hq'e.symm
  · subst h
    obtain ⟨_, _, hx⟩ := append_pair_inj _ _ _ _ _ _ heq2
    simp [mkFLIP] at hx
  · subst h
    obtain ⟨_, hx, _⟩ := append_pair_inj _ _ _ _ _ _ heq2
    simp [mkROT90] at hx
  · subst h
    obtain ⟨_, hx, _⟩ := append_pair_inj _ _ _ _ _ _ heq2
    simp [mkROT90] at hx
  · subst h
    obtain ⟨_, hx, _⟩ := append_pair_inj _ _ _ _ _ _ heq2
    simp [mkROT90] at hx
  · subst h
    obtain ⟨_, hx, _⟩ := append_pair_inj _ _ _ _ _ _ heq2
    simp [mkROT90] at hx

theorem pools_nonempty (xs ys : List Grid) (beam : Nat) (p0 : List Cand)
    (hp0 : ∀ q ∈ p0, q.1 = ([] : List Step)) (hp0n : p0 ≠ []) (hbeam : 1 ≤ beam) :
    ∀ n, (pools xs ys beam p0 n).1 ≠ [] := by
  intro n
  induction n with
  | zero =>
    rw [pools_zero]
    exact hp0n
  | succ n ih =>
    rw [pools_succ]
    unfold stepState
    refine take_ne_nil_of_pos _ beam (sortDesc_ne_nil _ ?_) hbeam
    intro hnil
    unfold roundP at hnil
    have hall := foldl_entry_empty xs ys (candidates (pools xs ys beam p0 n).1)
      (pools xs ys beam p0 n).2 hnil
    cases hpool : (pools xs ys beam p0 n).1 with
    | nil => exact ih hpool
    | cons e rest =>
      have hcand : e.1 ++ [mkROT90 1, mkFLIP 0] ∈ candidates (pools xs ys beam p0 n).1 := by
        rw [mem_candidates]
        exact ⟨e, by rw [hpool]; exact List.mem_cons_self e rest,
          [mkROT90 1, mkFLIP 0], double_mem_op_space, rfl⟩
      have hkey := hall _ hcand
      cases n with
      | zero =>
        rw [pools_zero] at hkey
        exact absurd hkey (List.not_mem_nil _)
      | succ n2 =>
        exact pools_fresh_double xs ys beam p0 hp0 n2 e
          (by rw [hpool]; exact List.mem_cons_self e rest) hkey

theorem pools_progs_ne_nil (xs ys : List Grid) (beam : Nat) (p0 : List Cand) (n : Nat) :
    ∀ e ∈ (pools xs ys beam p0 (n + 1)).1, e.1 ≠ [] := by
  intro e he
  obtain ⟨q, _, mv, hmv, heq, _, _⟩ := pools_mem xs ys beam p0 n e he
  rw [heq]
  intro hnil
  exact op_space_ne_nil mv hmv (List.append_eq_nil.mp hnil).2

theorem keyHashable_append (p q : List Step) :
    keyHashable (p ++ q) = (keyHashable p && keyHashable q) :=
  List.all_append

theorem step_entryE_eq (xs ys : List Grid) (st : List Cand × List KeyT)
    (c : List Step) (h : keyHashable c = true) :
    step_entryE xs ys st c = .ok (step_entry xs ys st c) := by
  unfold step_entryE seen_check step_entry
  rw [if_pos h]
  by_cases hmem : progKey c ∈ st.2
  · simp [hmem]
  · simp [hmem]

theorem step_entryE_remap_error (xs ys : List Grid) (st : List Cand × List KeyT)
    (m : List (Int × Int)) (c : List Step) (hc : mkREMAP m ∈ c) :
    step_entryE xs ys st c = .error "TypeError: unhashable type: dict" := by
  have hfalse : keyHashable c = false :=
    List.all_eq_false.mpr ⟨mkREMAP m, hc, by simp [mkREMAP]⟩
  unfold step_entryE seen_check
  rw [hfalse]
  rfl

theorem foldE_eq (xs ys : List Grid) (cs : List (List Step)) :
    ∀ st : List Cand × List KeyT, (∀ c ∈ cs, keyHashable c = true) →
      foldE (step_entryE xs ys) st cs = .ok (cs.foldl (step_entry xs ys) st) := by
  induction cs with
  | nil => intro st _; rfl
  | cons c cs ih =>
    intro st h
    rw [foldE, step_entryE_eq xs ys st c (h c (List.mem_cons_self c cs))]
    rw [List.foldl_cons]
    exact ih (step_entry xs ys st c) (fun c2 hc2 => h c2 (List.mem_cons_of_mem c hc2))

theorem foldE_crash (xs ys : List Grid) (m : List (Int × Int)) :
    ∀ (l1 : List (List Step)) (c0 : List Step) (l2 : List (List Step))
      (st : List Cand × List KeyT),
      (∀ c ∈ l1, keyHashable c = true) → mkREMAP m ∈ c0 →
      foldE (step_entryE xs ys) st (l1 ++ c0 :: l2) =
        .error "TypeError: unhashable type: dict" := by
  intro l1
  induction l1 with
  | nil =>
    intro c0 l2 st _ hc
    rw [List.nil_append, foldE, step_entryE_remap_error xs ys st m c0 hc]
  | cons c l1 ih =>
    intro c0 l2 st h1 hc
    rw [List.cons_append, foldE, step_entryE_eq xs ys st c (h1 c (List.mem_cons_self c l1))]
    exact ih c0 l2 (step_entry xs ys st c)
      (fun c2 hc2 => h1 c2 (List.mem_cons_of_mem c hc2)) hc

theorem candidates_hashable (pool : List Cand) (hp : allHashable pool) :
    ∀ c ∈ candidates pool, keyHashable c = true := by
  intro c hc
  obtain ⟨q, hq, mv, hmv, hceq⟩ := (mem_candidates pool c).mp hc
  rw [hceq, keyHashable_append, hp q hq, op_space_hashable mv hmv]
  rfl

theorem roundE_eq (xs ys : List Grid) (pool : List Cand) (seen : List KeyT)
    (hp : allHashable pool) :
    roundE xs ys pool seen = .ok (roundP xs ys pool seen) :=
  foldE_eq xs ys (candidates pool) ([], seen) (candidates_hashable pool hp)

theorem stepState_hashable (xs ys : List Grid) (beam : Nat)
    (st : List Cand × List KeyT) (hp : allHashable st.1) :
    allHashable (stepState xs ys beam st).1 := by
  intro e he
  unfold stepState at he
  have he2 : e ∈ (roundP xs ys st.1 st.2).1 :=
    (mem_sortDesc e _).mp (List.mem_of_mem_take he)
  unfold roundP at he2
  rcases foldl_entry_pool_mem xs ys _ _ e he2 with hin | ⟨hc, _, _, _⟩
  · exact absurd hin (List.not_mem_nil e)
  · exact candidates_hashable st.1 hp e.1 hc

theorem synth_loop_eq (xs ys : List Grid) (beam : Nat) :
    ∀ (n : Nat) (st : List Cand × List KeyT), allHashable st.1 →
      synth_loop xs ys beam n st = .ok (stepN xs ys beam n st) := by
  intro n
  induction n with
  | zero => intro st _; rfl
  | succ n ih =>
    intro st hst
    rw [synth_loop, roundE_eq xs ys st.1 st.2 hst]
    show synth_loop xs ys beam n
      ((sortDesc (roundP xs ys st.1 st.2).1).take beam, (roundP xs ys st.1 st.2).2) = _
    rw [ih ((sortDesc (roundP xs ys st.1 st.2).1).take beam, (roundP xs ys st.1 st.2).2)
      (stepState_hashable xs ys beam st hst)]
    rfl

theorem synth_loop_crash (xs ys : List Grid) (beam : Nat) (m : List (Int × Int))
    (s1 s2 : ℚ) (d : Nat) :
    synth_loop xs ys beam (d + 1)
      ([(([] : List Step), s1), ([mkREMAP m], s2)], ([] : List KeyT)) =
      .error "TypeError: unhashable type: dict" := by
  rw [synth_loop]
  have hcand : candidates [(([] : List Step), s1), ([mkREMAP m], s2)] =
      (op_space.map (fun mv => ([] : List Step) ++ mv)) ++
      (([mkREMAP m, mkROT90 1]) :: (op_space.tail.map (fun mv => [mkREMAP m] ++ mv))) := by
    unfold candidates
    rw [List.flatMap_cons, List.flatMap_cons, List.flatMap_nil, List.append_nil]
    rfl
  have hround : roundE xs ys [(([] : List Step), s1), ([mkREMAP m], s2)] [] =
      .error "TypeError: unhashable type: dict" := by
    unfold roundE
    rw [hcand]
    refine foldE_crash xs ys m _ _ _ _ ?_ (List.mem_cons_self _ _)
    intro c hc
    obtain ⟨mv, hmv, hceq⟩ := List.mem_map.mp hc
    rw [← hceq, List.nil_append]
    exact op_space_hashable mv hmv
  rw [hround]

/-- C10 amended: for every task with at least one training pair, every beam
width of at least 1, and every depth of at least 1, whenever
synthesize_scroll returns normally its result is a non-empty scroll: each
expansion round replaces the pool entirely with extended candidates, so the
identity scroll present at initialization can never be returned. With beam
width 0 the pool empties and the empty scroll is returned, which is the
counterexample to the claim as stated. -/
theorem C10_result_nonempty (train : List (Mat × Mat)) (beam depth : Nat)
    (r : List Step) (hbeam : 1 ≤ beam) (hdepth : 1 ≤ depth)
    (hok : synthesize_scroll train beam depth = .ok r) : r ≠ [] := by
  unfold synthesize_scroll at hok
  cases hmx : mapE (fun p => from_list p.1) train with
  | error e => rw [hmx] at hok; exact Except.noConfusion hok
  | ok xs =>
  rw [hmx] at hok
  cases hmy : mapE (fun p => from_list p.2) train with
  | error e => rw [hmy] at hok; exact Except.noConfusion hok
  | ok ys =>
  rw [hmy] at hok
  cases xs with
  | nil =>
    cases ys with
    | nil => exact Except.noConfusion hok
    | cons y0 ys2 => exact Except.noConfusion hok
  | cons x0 xs2 =>
  cases ys with
  | nil => exact Except.noConfusion hok
  | cons y0 ys2 =>
  replace hok : (match synth_loop (x0 :: xs2) (y0 :: ys2) beam depth
      (init_pool (x0 :: xs2) (y0 :: ys2) x0 y0, ([] : List KeyT)) with
    | Except.error e => Except.error e
    | Except.ok st =>
      Except.ok (match sortDesc st.1 with
        | [] => ([] : List Step)
        | c :: _ => c.1)) = Except.ok r := hok
  obtain ⟨d, rfl⟩ : ∃ d, depth = d + 1 := ⟨depth - 1, by omega⟩
  by_cases hseedcase : ∃ m, infer_remap x0.data y0.data = some m ∧ m.isEmpty = false
  · obtain ⟨m, hseed, hme⟩ := hseedcase
    have hp0eq : init_pool (x0 :: xs2) (y0 :: ys2) x0 y0 =
        [(([] : List Step), score_prog [] (x0 :: xs2) (y0 :: ys2)),
         ([mkREMAP m], score_prog [mkREMAP m] (x0 :: xs2) (y0 :: ys2))] := by
      unfold init_pool
      rw [hseed]
      simp [hme]
    rw [hp0eq, synth_loop_crash (x0 :: xs2) (y0 :: ys2) beam m _ _ d] at hok
    exact Except.noConfusion hok
  · have hp0eq : init_pool (x0 :: xs2) (y0 :: ys2) x0 y0 =
        [(([] : List Step), score_prog [] (x0 :: xs2) (y0 :: ys2))] := by
      unfold init_pool
      cases hseed : infer_remap x0.data y0.data with
      | none => rfl
      | some m =>
        cases hme : m.isEmpty with
        | true => simp [hme]
        | false => exact absurd ⟨m, hseed, hme⟩ hseedcase
    rw [hp0eq] at hok
    have hhash : allHashable
        [(([] : List Step), score_prog [] (x0 :: xs2) (y0 :: ys2))] := by
      intro q hq
      rcases List.mem_singleton.mp hq with rfl
      rfl
    rw [synth_loop_eq (x0 :: xs2) (y0 :: ys2) beam (d + 1) _ hhash] at hok
    injection hok with hok3
    have hpdef : stepN (x0 :: xs2) (y0 :: ys2) beam (d + 1)
        ([(([] : List Step), score_prog [] (x0 :: xs2) (y0 :: ys2))], []) =
        pools (x0 :: xs2) (y0 :: ys2) beam
          [(([] : List Step), score_prog [] (x0 :: xs2) (y0 :: ys2))] (d + 1) := rfl
    rw [hpdef] at hok3
    have hp0progs : ∀ q ∈
        [(([] : List Step), score_prog [] (x0 :: xs2) (y0 :: ys2))],
        q.1 = ([] : List Step) := by
      intro q hq
      rcases List.mem_singleton.mp hq with rfl
      rfl
    have hne := pools_nonempty (x0 :: xs2) (y0 :: ys2) beam
      [(([] : List Step), score_prog [] (x0 :: xs2) (y0 :: ys2))] hp0progs
      (List.cons_ne_nil _ _) hbeam (d + 1)
    cases hsort : sortDesc (pools (x0 :: xs2) (y0 :: ys2) beam
        [(([] : List Step), score_prog [] (x0 :: xs2) (y0 :: ys2))] (d + 1)).1 with
    | nil => exact absurd hsort (sortDesc_ne_nil _ hne)
    | cons c crest =>
      rw [hsort] at hok3
      replace hok3 : c.1 = r := hok3
      rw [← hok3]
      refine pools_progs_ne_nil (x0 :: xs2) (y0 :: ys2) beam
        [(([] : List Step), score_prog [] (x0 :: xs2) (y0 :: ys2))] d c ?_
      refine (mem_sortDesc c _).mp ?_
      rw [hsort]
      exact List.mem_cons_self c crest

/-- C10 witness: a concrete one-pair task with beam 1 and depth 1 returns
the non-empty scroll consisting of a single 180 degree rotation. -/
theorem C10_witness : ([mkROT90 2] : List Step) ≠ [] :=
  C10_result_nonempty [([[1, 2]], [[1, 1]])] 1 1 [mkROT90 2] (by decide) (by decide)
    (by with_unfolding_all rfl)
